import Mathlib

/-!
Verification model of `AAS.py` (Advanced Audio Suite).

Python strings are modelled as `List Char`; Python floats are modelled by
exact rationals (`ℚ`); the filesystem is modelled as a partial map from
path strings to file sizes.  Definitions follow the source code of
`src/AAS.py`; names are kept where Lean allows it.
-/

/-- A Python string, modelled as its list of characters. -/
abbrev Str := List Char

/-- `CsvRow` dataclass from AAS.py: `path` and `text_to_play` fields. -/
structure CsvRow where
  path : Str
  text_to_play : Str
deriving DecidableEq, Repr

/-- Python's single-character `str.replace(target, repl)`: every occurrence
of the character `target` is replaced by the string `repl`. -/
def replaceChar (target : Char) (repl : Str) : Str → Str
  | [] => []
  | c :: rest => (if c = target then repl else [c]) ++ replaceChar target repl rest

/-- `escape_xml_text` from AAS.py: the chained `str.replace` calls, with
`&` replaced first. -/
def escape_xml_text (value : Str) : Str :=
  replaceChar '\'' "&apos;".toList
    (replaceChar '"' "&quot;".toList
      (replaceChar '>' "&gt;".toList
        (replaceChar '<' "&lt;".toList
          (replaceChar '&' "&amp;".toList value))))

/-- Per-character escaping map: the net effect of the five chained
replacements on one input character. -/
def escMap (c : Char) : Str :=
  if c = '&' then "&amp;".toList
  else if c = '<' then "&lt;".toList
  else if c = '>' then "&gt;".toList
  else if c = '"' then "&quot;".toList
  else if c = '\'' then "&apos;".toList
  else [c]

/-- Decimal digits of a natural number (most significant first). -/
def natChars (n : Nat) : Str := Nat.toDigits 10 n

/-- Print a signed number of hundredths as a fixed-point decimal with an
explicit sign and exactly two digits after the decimal point. -/
def signedOfH (h : ℤ) : Str :=
  (if h < 0 then '-' else '+') :: (natChars (h.natAbs / 100) ++ '.' ::
    (if h.natAbs % 100 < 10 then '0' :: natChars (h.natAbs % 100)
     else natChars (h.natAbs % 100)))

/-- Python's `f"{x:+.2f}"` on an exact rational: round to hundredths, print
with an explicit sign and exactly two digits after the decimal point. -/
def fmtSigned2 (x : ℚ) : Str :=
  signedOfH (round (x * 100))

/-- `speed_multiplier_to_rate` from AAS.py:
`percentage = (speed - 1.0) * 100.0` and `f"{percentage:+.2f}%"`. -/
def speed_multiplier_to_rate (speed : ℚ) : Str :=
  fmtSigned2 ((speed - 1) * 100) ++ "%".toList

/-- The markup text of `build_ssml` that precedes the inserted user text. -/
def ssmlBefore (language_code region short_name style : Str) (speed : ℚ)
    (pre_silence : ℤ) : Str :=
  let xml_lang := language_code ++ "-".toList ++ region
  let rate := speed_multiplier_to_rate speed
  let style_wrapper_start :=
    if style.map Char.toLower = "default".toList then []
    else "<mstts:express-as style='".toList ++ style.map Char.toLower ++
      "' styledegree='2'>".toList
  "<speak version='1.0' xmlns='http://www.w3.org/2001/10/synthesis' ".toList ++
  "xmlns:mstts='https://www.w3.org/2001/mstts' ".toList ++
  "xml:lang='".toList ++ xml_lang ++ "'>".toList ++
  "<voice name='".toList ++ short_name ++ "'>".toList ++
  style_wrapper_start ++
  "<lang xml:lang='".toList ++ xml_lang ++ "'>".toList ++
  "<prosody rate='".toList ++ rate ++ "'>".toList ++
  "<mstts:silence type='Leading-exact' value='".toList ++
    (Int.repr pre_silence).toList ++ "ms'/>".toList

/-- The markup text of `build_ssml` that follows the inserted user text. -/
def ssmlAfter (style : Str) (post_silence : ℤ) : Str :=
  let style_wrapper_end :=
    if style.map Char.toLower = "default".toList then []
    else "</mstts:express-as>".toList
  "<mstts:silence type='Trailing-exact' value='".toList ++
    (Int.repr post_silence).toList ++ "ms'/>".toList ++
  "</prosody>".toList ++ "</lang>".toList ++
  style_wrapper_end ++ "</voice>".toList ++ "</speak>".toList

/-- `build_ssml` from AAS.py: the SSML document, with the user text
inserted through `escape_xml_text`. -/
def build_ssml (language_code region short_name text style : Str) (speed : ℚ)
    (pre_silence post_silence : ℤ) : Str :=
  ssmlBefore language_code region short_name style speed pre_silence ++
  escape_xml_text text ++
  ssmlAfter style post_silence

/-- The five markup entities that `escape_xml_text` may emit. -/
def xmlEntities : List Str :=
  ["&amp;".toList, "&lt;".toList, "&gt;".toList, "&quot;".toList, "&apos;".toList]

/-- Python's `str.strip()` whitespace test (ASCII whitespace). -/
def isPySpace (c : Char) : Bool :=
  c = ' ' || c = '\t' || c = '\n' || c = '\r' || c = '\x0b' || c = '\x0c'

/-- Python's `str.strip()`: drop leading and trailing whitespace. -/
def pyStrip (s : Str) : Str :=
  ((s.dropWhile isPySpace).reverse.dropWhile isPySpace).reverse

/-- `row.path.replace(":", "_")` from AAS.py. -/
def replaceColon (s : Str) : Str := replaceChar ':' "_".toList s

/-- POSIX `Path.is_absolute()`: the path starts with a slash. -/
def isAbsolutePath (p : Str) : Bool := p.head? = some '/'

/-- Split a string on `/` separators. -/
def splitSlash : Str → List Str
  | [] => [[]]
  | c :: rest =>
    if c = '/' then [] :: splitSlash rest
    else
      match splitSlash rest with
      | [] => [[c]]
      | g :: gs => (c :: g) :: gs

/-- POSIX `Path.parts` for the traversal check: path segments with empty
segments and `.` segments removed (pathlib collapses both; the root part of
an absolute path is omitted here, which does not affect `".." in parts`). -/
def pathParts (p : Str) : List Str :=
  (splitSlash p).filter (fun seg => decide (seg ≠ [] ∧ seg ≠ ".".toList))

/-- `".." in path.parts`. -/
def hasParentSeg (p : Str) : Bool := decide ("..".toList ∈ pathParts p)

/-- `pathlib`'s `base / p` on POSIX: an absolute right operand replaces the
left operand entirely, otherwise the two are joined with a slash. -/
def joinPath (base p : Str) : Str :=
  if isAbsolutePath p then p else base ++ '/' :: p

/-- The filesystem, as a partial map from paths to file sizes. -/
def Fs : Type := Str → Option Nat

/-- Write a file of size `sz` at path `p`. -/
def fsWrite (fs : Fs) (p : Str) (sz : Nat) : Fs :=
  fun q => if q = p then some sz else fs q

/-- `unlink(missing_ok=True)` at path `p`. -/
def fsErase (fs : Fs) (p : Str) : Fs :=
  fun q => if q = p then none else fs q

/-! ### CSV snapshot store

Model of the Python `csv` module (excel dialect, `QUOTE_MINIMAL`,
`\r\n` line terminator) as used by `_write_rows` / `_read_csv_rows`. -/

/-- `QUOTE_MINIMAL`: a field is quoted iff it contains a delimiter, a
quote character, or a line-terminator character. -/
def needsQuote (f : Str) : Bool :=
  f.any (fun c => c = ',' || c = '"' || c = '\r' || c = '\n')

/-- Format one CSV field: wrap in quotes and double embedded quotes when
quoting is needed. -/
def quoteField (f : Str) : Str :=
  if needsQuote f then '"' :: (replaceChar '"' ['"', '"'] f ++ ['"']) else f

/-- Format one CSV record: comma-separated fields plus `\r\n`. -/
def csvLine (fields : List Str) : Str :=
  List.intercalate [','] (fields.map quoteField) ++ ['\r', '\n']

/-- `SynthesisWorker._write_rows`: header row `path,text to play`, then one
record per `CsvRow`. -/
def write_rows (rows : List CsvRow) : Str :=
  csvLine ["path".toList, "text to play".toList] ++
  (rows.map (fun row => csvLine [row.path, row.text_to_play])).flatten

/-- Parse the body of a quoted CSV field (after the opening quote): a
doubled quote is a literal quote, a single quote closes the field. -/
def parseQuoted : Str → Str × Str
  | [] => ([], [])
  | c :: rest =>
    if c = '"' then
      match rest with
      | [] => ([], [])
      | c2 :: rest2 =>
        if c2 = '"' then
          let (f, r) := parseQuoted rest2
          ('"' :: f, r)
        else ([], c2 :: rest2)
    else
      let (f, r) := parseQuoted rest
      (c :: f, r)

/-- Parse an unquoted CSV field: characters up to a delimiter or a
line-terminator character. -/
def parseUnquoted : Str → Str × Str
  | [] => ([], [])
  | c :: rest =>
    if c = ',' || c = '\r' || c = '\n' then ([], c :: rest)
    else
      let (f, r) := parseUnquoted rest
      (c :: f, r)

/-- Parse one CSV field; a field starting with a quote is quoted, and any
non-strict continuation after the closing quote is appended. -/
def parseField : Str → Str × Str
  | [] => ([], [])
  | c :: rest =>
    if c = '"' then
      let (f, r) := parseQuoted rest
      let (f2, r2) := parseUnquoted r
      (f ++ f2, r2)
    else parseUnquoted (c :: rest)

/-- After `\r`, a following `\n` is consumed as part of the terminator. -/
def dropLf (rest : Str) : Str :=
  if rest.head? = some '\n' then rest.tail else rest

/-- Parse one CSV record (fuelled; each step consumes the separator). -/
def parseRecord : Nat → Str → (List Str × Str)
  | 0, s => ([], s)
  | fuel + 1, s =>
    let (f, r) := parseField s
    match r with
    | [] => ([f], [])
    | c :: rest =>
      if c = ',' then
        let (fs, r2) := parseRecord fuel rest
        (f :: fs, r2)
      else if c = '\r' then ([f], dropLf rest)
      else if c = '\n' then ([f], rest)
      else ([f], [])

/-- Parse a whole CSV document into records; a bare line terminator yields
an empty record, as in the Python `csv` reader. -/
def parseRecords : Nat → Str → List (List Str)
  | 0, _ => []
  | fuel + 1, s =>
    match s with
    | [] => []
    | c :: rest =>
      if c = '\r' then [] :: parseRecords fuel (dropLf rest)
      else if c = '\n' then [] :: parseRecords fuel rest
      else
        let (rcd, r) := parseRecord (c :: rest).length (c :: rest)
        rcd :: parseRecords fuel r

/-- Parse a CSV document: strip a UTF-8 BOM if present (`utf-8-sig`), then
parse records with sufficient fuel. -/
def parseCsv (s : Str) : List (List Str) :=
  let s := if s.take 1 = ['﻿'] then s.drop 1 else s
  parseRecords (s.length + 1) s

/-- `dict(zip(fieldnames, row)).get(key)`: the value in `vals` at the
position of `key` in `header` (last binding wins, as in a Python dict). -/
def dictGet (header vals : List Str) (key : Str) : Option Str :=
  (((header.zip vals).filter (fun kv => decide (kv.1 = key))).getLast?).map
    (fun kv => kv.2)

/-- The `DictReader` loop of `_read_csv_rows` applied to parsed records:
the first record is the header; blank records are skipped; `path` and
`text to play` are stripped and rows with an empty path are dropped. -/
def rowsOfRecords : List (List Str) → List CsvRow
  | [] => []
  | header :: data =>
    (data.filter (fun rcd => decide (rcd ≠ []))).filterMap (fun rcd =>
      let path_value := pyStrip ((dictGet header rcd "path".toList).getD [])
      let text_value := pyStrip ((dictGet header rcd "text to play".toList).getD [])
      if path_value = [] then none
      else some ⟨path_value, text_value⟩)

/-- `SynthesisWorker._read_csv_rows` on a CSV document. -/
def read_csv_rows (s : Str) : List CsvRow := rowsOfRecords (parseCsv s)

/-! ### Change detector -/

/-- One dict insertion `last_map[row.path] = row.text_to_play`. -/
def mapUpd (m : Str → Option Str) (row : CsvRow) : Str → Option Str :=
  fun p => if p = row.path then some row.text_to_play else m p

/-- `last_map = {row.path: row.text_to_play for row in last_rows}`:
a later row with the same path overwrites an earlier one. -/
def lastMapOf (last_rows : List CsvRow) : Str → Option Str :=
  last_rows.foldl mapUpd (fun _ => none)

/-- `row.path not in last_map`. -/
def rowIsNew (m : Str → Option Str) (row : CsvRow) : Bool :=
  decide (m row.path = none)

/-- `row.path in last_map and last_map[row.path] != row.text_to_play`. -/
def rowIsChanged (m : Str → Option Str) (row : CsvRow) : Bool :=
  match m row.path with
  | none => false
  | some t => decide (t ≠ row.text_to_play)

/-- A row that is neither new nor changed. -/
def rowIsUnchanged (m : Str → Option Str) (row : CsvRow) : Bool :=
  match m row.path with
  | none => false
  | some t => decide (t = row.text_to_play)

/-- Accumulator of the diff loop in `_run_impl`. -/
structure DiffResult where
  changed_rows : List CsvRow
  new_rows : List CsvRow
  fs : Fs

/-- One iteration of the diff loop in `_run_impl`: a new row is appended
to `new_rows`; a changed row is appended to `changed_rows` and its old
output file (if it exists) is deleted. -/
def diffStep (base_output : Str) (last_map : Str → Option Str)
    (acc : DiffResult) (row : CsvRow) : DiffResult :=
  match last_map row.path with
  | none => { acc with new_rows := acc.new_rows ++ [row] }
  | some t =>
    if t ≠ row.text_to_play then
      let old_file := joinPath base_output (replaceColon row.path)
      { acc with
        changed_rows := acc.changed_rows ++ [row],
        fs := if (acc.fs old_file).isSome then fsErase acc.fs old_file else acc.fs }
    else acc

/-- The diff loop of `_run_impl` over all current rows. -/
def diffRows (base_output : Str) (current_rows last_rows : List CsvRow)
    (fs : Fs) : DiffResult :=
  current_rows.foldl (diffStep base_output (lastMapOf last_rows)) ⟨[], [], fs⟩

/-- Selection of the synthesis target set in `_run_impl`
(`if changed_rows and new_rows: ... elif ... else: current_rows`). -/
def selectTarget (changed_rows new_rows current_rows : List CsvRow) :
    List CsvRow :=
  if changed_rows ≠ [] ∧ new_rows ≠ [] then changed_rows ++ new_rows
  else if changed_rows ≠ [] then changed_rows
  else if new_rows ≠ [] then new_rows
  else current_rows

/-! ### Synthesis orchestrator -/

/-- Outcome of one `speak_ssml_async(...).get()` call, as observed by the
worker: either no result, or a result with a completion flag
(`reason == SynthesizingAudioCompleted`); `fileAfter` is the state of the
output file after the call (`none` = missing, `some sz` = size `sz`). -/
inductive AttemptOutcome where
  | noResult (fileAfter : Option Nat)
  | res (completed : Bool) (fileAfter : Option Nat)
deriving DecidableEq, Repr

/-- The failure test applied to one attempt, in the order of the source:
no result, or a non-success reason, or a missing output file, or a file
smaller than 1024 bytes. -/
def attemptFailed : AttemptOutcome → Bool
  | .noResult _ => true
  | .res completed fileAfter =>
    !completed ||
      (match fileAfter with
       | none => true
       | some sz => decide (sz < 1024))

/-- Result of the per-file retry loop. -/
structure RowSynth where
  attempts : Nat
  failedRow : Bool
  fileAfter : Option Nat
deriving DecidableEq, Repr

/-- The `while True` retry loop of `_run_impl` for one file, starting at
retry count `rc`; `oracle n` is the outcome of the `n`-th attempt.  On the
third failure the partial file is deleted (`fileAfter = none`) and the row
is marked failed.  The loop exits through the `retry_count >= 3` checks of
the source before the structural fuel (kept at `3 - rc`) can run out. -/
def retryLoop (oracle : Nat → AttemptOutcome) : Nat → Nat → RowSynth
  | 0, rc => ⟨rc, true, none⟩
  | fuel + 1, rc =>
    match oracle rc with
    | .noResult _ =>
      if rc + 1 ≥ 3 then ⟨rc + 1, true, none⟩
      else retryLoop oracle fuel (rc + 1)
    | .res completed fileAfter =>
      if attemptFailed (.res completed fileAfter) then
        if rc + 1 ≥ 3 then ⟨rc + 1, true, none⟩
        else retryLoop oracle fuel (rc + 1)
      else ⟨rc + 1, false, fileAfter⟩

/-- The retry loop entered with `retry_count = 0`. -/
def runRow (oracle : Nat → AttemptOutcome) : RowSynth := retryLoop oracle 3 0

/-- How one target row was handled by the synthesis loop. -/
inductive RowOutcome where
  | skippedUnsafe
  | skippedExisting
  | synthesized (s : RowSynth)
deriving DecidableEq, Repr

/-- Number of TTS capability invocations recorded in a row outcome. -/
def RowOutcome.attemptCount : RowOutcome → Nat
  | .synthesized s => s.attempts
  | _ => 0

/-- Mutable state threaded through the synthesis loop. -/
structure BatchState where
  fs : Fs
  failed_outputs : List Str

/-- One iteration of the synthesis loop of `_run_impl`: path-safety check,
skip-if-exists check, then the retry loop with its filesystem effects and
failure accounting. -/
def processRow (base_output : Str) (oracle : Nat → AttemptOutcome)
    (st : BatchState) (row : CsvRow) : RowOutcome × BatchState :=
  let safe_relative_path := replaceColon row.path
  if isAbsolutePath safe_relative_path || hasParentSeg safe_relative_path then
    (.skippedUnsafe, st)
  else
    let output_file := joinPath base_output safe_relative_path
    if (st.fs output_file).isSome then (.skippedExisting, st)
    else
      let s := runRow oracle
      let fs' := match s.fileAfter with
        | some sz => fsWrite st.fs output_file sz
        | none => fsErase st.fs output_file
      (.synthesized s,
        ⟨fs', st.failed_outputs ++ (if s.failedRow then [output_file] else [])⟩)

/-- The synthesis loop over the target rows; `oracle i n` is the outcome of
attempt `n` for the `i`-th target row. -/
def processRows (base_output : Str) (oracle : Nat → Nat → AttemptOutcome) :
    List CsvRow → Nat → BatchState → (List RowOutcome × BatchState)
  | [], _, st => ([], st)
  | row :: rest, i, st =>
    let (o, st') := processRow base_output (oracle i) st row
    let (os, st'') := processRows base_output oracle rest (i + 1) st'
    (o :: os, st'')

/-- The failure summary message raised by `_run_impl`: up to five failing
paths, with a `", ..."` indicator when there are more. -/
def failSummary (failed_outputs : List Str) : Str :=
  "Synthesis failed for ".toList ++ natChars failed_outputs.length ++
  " file(s) after 3 retries. Examples: ".toList ++
  List.intercalate ", ".toList (failed_outputs.take 5) ++
  (if failed_outputs.length > 5 then ", ...".toList else [])

/-- Observable result of one batch run. -/
structure RunResult where
  outcomes : List RowOutcome
  fs : Fs
  failed_outputs : List Str
  error : Option Str
  snapshot : Option (List CsvRow)
  settings_written : Bool

/-- `SynthesisWorker._run_impl` after the CSV files are read: seed the
snapshot from the current rows when absent, diff, select the target set,
run the synthesis loop, then either raise the failure summary (leaving the
snapshot and settings unwritten) or commit the snapshot and settings. -/
def run_impl (base_output : Str) (oracle : Nat → Nat → AttemptOutcome)
    (current_rows : List CsvRow) (lastSnapshot : Option (List CsvRow))
    (fs : Fs) : RunResult :=
  let last_rows := lastSnapshot.getD current_rows
  let d := diffRows base_output current_rows last_rows fs
  let target_rows := selectTarget d.changed_rows d.new_rows current_rows
  let pr := processRows base_output oracle target_rows 0 ⟨d.fs, []⟩
  if pr.2.failed_outputs ≠ [] then
    { outcomes := pr.1, fs := pr.2.fs, failed_outputs := pr.2.failed_outputs,
      error := some (failSummary pr.2.failed_outputs),
      snapshot := none, settings_written := false }
  else
    { outcomes := pr.1, fs := pr.2.fs, failed_outputs := [],
      error := none, snapshot := some current_rows, settings_written := true }

theorem digitChar_isDigit : ∀ m, m < 10 → (Nat.digitChar m).isDigit = true := by
  decide

theorem toDigitsCore_mem (fuel n : Nat) (ds : List Char) (c : Char)
    (hc : c ∈ Nat.toDigitsCore 10 fuel n ds) :
    c ∈ ds ∨ ∃ m, m < 10 ∧ c = Nat.digitChar m := by
  induction fuel generalizing n ds with
  | zero => simp [Nat.toDigitsCore] at hc; exact .inl hc
  | succ fuel ih =>
    simp only [Nat.toDigitsCore] at hc
    split at hc
    · rcases List.mem_cons.mp hc with rfl | hc
      · exact .inr ⟨n % 10, Nat.mod_lt _ (by norm_num), rfl⟩
      · exact .inl hc
    · rcases ih _ _ hc with h | h
      · rcases List.mem_cons.mp h with rfl | h
        · exact .inr ⟨n % 10, Nat.mod_lt _ (by norm_num), rfl⟩
        · exact .inl h
      · exact .inr h

theorem natChars_isDigit (n : Nat) : ∀ c ∈ natChars n, c.isDigit = true := by
  intro c hc
  rcases toDigitsCore_mem _ _ _ _ hc with h | ⟨m, hm, rfl⟩
  · simp at h
  · exact digitChar_isDigit m hm

theorem natChars_len1 : ∀ m, m < 10 → (natChars m).length = 1 := by decide
theorem natChars_len2 : ∀ m, m < 100 → 10 ≤ m → (natChars m).length = 2 := by decide

theorem fracPart_shape (n : Nat) :
    (if n % 100 < 10 then '0' :: natChars (n % 100) else natChars (n % 100)).length = 2 ∧
    (∀ c ∈ (if n % 100 < 10 then '0' :: natChars (n % 100) else natChars (n % 100)),
      c.isDigit = true) := by
  constructor
  · split
    next h => simp [natChars_len1 _ h]
    next h => exact natChars_len2 _ (Nat.mod_lt _ (by norm_num)) (by omega)
  · intro c hc
    split at hc
    · rcases List.mem_cons.mp hc with rfl | hc
      · decide
      · exact natChars_isDigit _ c hc
    · exact natChars_isDigit _ c hc

/-- C9: `speed_multiplier_to_rate` formats `(speed - 1.0) * 100` with an
explicit leading sign and exactly two decimal places followed by `%`;
in particular 1.0 gives `+0.00%`, 1.25 gives `+25.00%`, 0.75 gives
`-25.00%` and 0.9 gives `-10.00%`. -/
theorem rate_format_spec :
    (∀ speed : ℚ, speed_multiplier_to_rate speed
        = fmtSigned2 ((speed - 1) * 100) ++ ['%']) ∧
    (∀ speed : ℚ, ∃ sign intPart frac,
        speed_multiplier_to_rate speed = sign :: (intPart ++ '.' :: frac) ++ ['%'] ∧
        (sign = '+' ∨ sign = '-') ∧
        frac.length = 2 ∧ (∀ c ∈ frac, c.isDigit = true) ∧
        (∀ c ∈ intPart, c.isDigit = true)) ∧
    speed_multiplier_to_rate 1 = "+0.00%".toList ∧
    speed_multiplier_to_rate (5/4) = "+25.00%".toList ∧
    speed_multiplier_to_rate (3/4) = "-25.00%".toList ∧
    speed_multiplier_to_rate (9/10) = "-10.00%".toList := by
  refine ⟨fun _ => rfl, fun speed => ?_, ?_, ?_, ?_, ?_⟩
  · set h := round (((speed - 1) * 100) * 100) with hh
    refine ⟨if h < 0 then '-' else '+', natChars (h.natAbs / 100),
      (if h.natAbs % 100 < 10 then '0' :: natChars (h.natAbs % 100)
       else natChars (h.natAbs % 100)), ?_, ?_, ?_, ?_, ?_⟩
    · simp [speed_multiplier_to_rate, fmtSigned2, signedOfH, ← hh]
    · split <;> simp
    · exact (fracPart_shape h.natAbs).1
    · exact (fracPart_shape h.natAbs).2
    · exact natChars_isDigit _
  · simp only [speed_multiplier_to_rate, fmtSigned2]; norm_num [round_eq]; decide
  · simp only [speed_multiplier_to_rate, fmtSigned2]; norm_num [round_eq]; decide
  · simp only [speed_multiplier_to_rate, fmtSigned2]; norm_num [round_eq]; decide
  · simp only [speed_multiplier_to_rate, fmtSigned2]; norm_num [round_eq]; decide

/-- C4: the synthesis target set is the changed rows followed by the new
rows when both groups are non-empty, the single non-empty group when only
one is, and all current rows when both are empty; the skip-if-output-exists
rule of the synthesis loop then limits actual work to missing files. -/
theorem target_selection_spec :
    (∀ changed_rows new_rows current_rows : List CsvRow,
      (changed_rows ≠ [] → new_rows ≠ [] →
        selectTarget changed_rows new_rows current_rows = changed_rows ++ new_rows) ∧
      (changed_rows ≠ [] → new_rows = [] →
        selectTarget changed_rows new_rows current_rows = changed_rows) ∧
      (changed_rows = [] → new_rows ≠ [] →
        selectTarget changed_rows new_rows current_rows = new_rows) ∧
      (changed_rows = [] → new_rows = [] →
        selectTarget changed_rows new_rows current_rows = current_rows)) ∧
    (∀ base_output oracle st row,
      isAbsolutePath (replaceColon row.path) = false →
      hasParentSeg (replaceColon row.path) = false →
      (st.fs (joinPath base_output (replaceColon row.path))).isSome = true →
      processRow base_output oracle st row = (.skippedExisting, st)) := by
  constructor
  · intro changed_rows new_rows current_rows
    refine ⟨fun h1 h2 => ?_, fun h1 h2 => ?_, fun h1 h2 => ?_, fun h1 h2 => ?_⟩ <;>
      simp [selectTarget, h1, h2]
  · intro base_output oracle st row h1 h2 h3
    simp [processRow, h1, h2, h3]

/-- Witness for C4 at concrete inputs. -/
theorem target_selection_spec_witness :
    selectTarget [⟨['a'], ['x']⟩] [⟨['b'], ['y']⟩] []
        = [⟨['a'], ['x']⟩, ⟨['b'], ['y']⟩] ∧
    processRow ['o'] (fun _ => .noResult none)
        ⟨fun q => if q = ['o', '/', 'a'] then some 2048 else none, []⟩ ⟨['a'], ['x']⟩
      = (.skippedExisting, ⟨fun q => if q = ['o', '/', 'a'] then some 2048 else none, []⟩) := by
  constructor
  · exact (target_selection_spec.1 [⟨['a'], ['x']⟩] [⟨['b'], ['y']⟩] []).1 (by decide) (by decide)
  · exact target_selection_spec.2 ['o'] (fun _ => .noResult none) _ ⟨['a'], ['x']⟩
      (by decide) (by decide) (by decide)

theorem class_trichotomy (m : Str → Option Str) (row : CsvRow) :
    (rowIsNew m row = true ∧ rowIsChanged m row = false ∧ rowIsUnchanged m row = false) ∨
    (rowIsNew m row = false ∧ rowIsChanged m row = true ∧ rowIsUnchanged m row = false) ∨
    (rowIsNew m row = false ∧ rowIsChanged m row = false ∧ rowIsUnchanged m row = true) := by
  unfold rowIsNew rowIsChanged rowIsUnchanged
  rcases hm : m row.path with _ | t
  · simp
  · by_cases ht : t = row.text_to_play <;> simp [ht]

theorem count_partition (m : Str → Option Str) (l : List CsvRow) (row : CsvRow) :
    ((l.filter (rowIsNew m)).count row + (l.filter (rowIsChanged m)).count row) +
      (l.filter (rowIsUnchanged m)).count row = l.count row := by
  induction l with
  | nil => simp
  | cons r t ih =>
    rcases class_trichotomy m r with ⟨h1, h2, h3⟩ | ⟨h1, h2, h3⟩ | ⟨h1, h2, h3⟩ <;>
      simp [List.filter_cons, h1, h2, h3, List.count_cons] <;> omega

theorem diff_foldl (base_output : Str) (m : Str → Option Str) (l : List CsvRow)
    (acc : DiffResult) :
    (l.foldl (diffStep base_output m) acc).changed_rows
        = acc.changed_rows ++ l.filter (rowIsChanged m) ∧
    (l.foldl (diffStep base_output m) acc).new_rows
        = acc.new_rows ++ l.filter (rowIsNew m) := by
  induction l generalizing acc with
  | nil => simp
  | cons r t ih =>
    simp only [List.foldl_cons, List.filter_cons]
    rcases hm : m r.path with _ | tv
    · have h1 := ih { acc with new_rows := acc.new_rows ++ [r] }
      simp only [diffStep, hm, rowIsNew, rowIsChanged, h1.1, h1.2]
      simp [hm]
    · by_cases ht : tv = r.text_to_play
      · have h1 := ih acc
        simp only [diffStep, hm, ht, rowIsNew, rowIsChanged]
        simp [hm, ht, h1.1, h1.2, ih]
      · have h1 := ih { acc with
          changed_rows := acc.changed_rows ++ [r],
          fs := if ((acc.fs (joinPath base_output (replaceColon r.path))).isSome)
                then fsErase acc.fs (joinPath base_output (replaceColon r.path))
                else acc.fs }
        simp only [diffStep, hm, rowIsNew, rowIsChanged]
        simp [hm, ht, h1.1, h1.2]

/-- C3: the change detector classifies each current row as new iff its
path is absent from the previous path-to-text mapping, changed iff the
path is present with different text, unchanged otherwise; the three
classes are mutually exclusive and exhaustive, the diff loop computes
exactly the new and changed classes, and the three classes cover each
current row exactly once (counted with multiplicity). -/
theorem diff_partition_spec (current_rows last_rows : List CsvRow) (base_output : Str) (fs : Fs) :
    (∀ row : CsvRow,
      (rowIsNew (lastMapOf last_rows) row = true ↔ lastMapOf last_rows row.path = none) ∧
      (rowIsChanged (lastMapOf last_rows) row = true ↔
        ∃ t, lastMapOf last_rows row.path = some t ∧ t ≠ row.text_to_play) ∧
      (rowIsUnchanged (lastMapOf last_rows) row = true ↔
        ∃ t, lastMapOf last_rows row.path = some t ∧ t = row.text_to_play)) ∧
    (∀ row : CsvRow,
      (if rowIsNew (lastMapOf last_rows) row then 1 else 0) +
      (if rowIsChanged (lastMapOf last_rows) row then 1 else 0) +
      (if rowIsUnchanged (lastMapOf last_rows) row then 1 else 0) = 1) ∧
    (diffRows base_output current_rows last_rows fs).changed_rows
      = current_rows.filter (rowIsChanged (lastMapOf last_rows)) ∧
    (diffRows base_output current_rows last_rows fs).new_rows
      = current_rows.filter (rowIsNew (lastMapOf last_rows)) ∧
    (∀ row : CsvRow,
      ((diffRows base_output current_rows last_rows fs).new_rows.count row +
       (diffRows base_output current_rows last_rows fs).changed_rows.count row) +
      (current_rows.filter (rowIsUnchanged (lastMapOf last_rows))).count row
        = current_rows.count row) := by
  have hd := diff_foldl base_output (lastMapOf last_rows) current_rows ⟨[], [], fs⟩
  refine ⟨fun row => ?_, fun row => ?_, ?_, ?_, fun row => ?_⟩
  · refine ⟨?_, ?_, ?_⟩
    · unfold rowIsNew; rcases lastMapOf last_rows row.path <;> simp
    · unfold rowIsChanged; rcases lastMapOf last_rows row.path with _ | t <;> simp
    · unfold rowIsUnchanged; rcases lastMapOf last_rows row.path with _ | t <;> simp
  · rcases class_trichotomy (lastMapOf last_rows) row with ⟨h1, h2, h3⟩ | ⟨h1, h2, h3⟩ |
      ⟨h1, h2, h3⟩ <;> simp [h1, h2, h3]
  · simpa using hd.1
  · simpa using hd.2
  · have h1 : (diffRows base_output current_rows last_rows fs).new_rows
        = current_rows.filter (rowIsNew (lastMapOf last_rows)) := by simpa using hd.2
    have h2 : (diffRows base_output current_rows last_rows fs).changed_rows
        = current_rows.filter (rowIsChanged (lastMapOf last_rows)) := by simpa using hd.1
    rw [h1, h2]
    exact count_partition _ _ _

theorem splitSlash_ne_nil (s : Str) : splitSlash s ≠ [] := by
  cases s with
  | nil => simp [splitSlash]
  | cons c rest =>
    by_cases hc : c = '/'
    · simp [splitSlash, hc]
    · simp only [splitSlash, if_neg hc]
      rcases h : splitSlash rest with _ | ⟨g, gs⟩ <;> simp

theorem splitSlash_append (a b : Str) :
    splitSlash (a ++ '/' :: b) = splitSlash a ++ splitSlash b := by
  induction a with
  | nil => simp [splitSlash]
  | cons c rest ih =>
    by_cases hc : c = '/'
    · simp [splitSlash, hc, ih]
    · simp only [List.cons_append, splitSlash, if_neg hc]
      rcases h : splitSlash rest with _ | ⟨g, gs⟩
      · exact absurd h (splitSlash_ne_nil rest)
      · rw [h] at ih
        simp [ih]

theorem pathParts_append (base rel : Str) :
    pathParts (base ++ '/' :: rel) = pathParts base ++ pathParts rel := by
  simp [pathParts, splitSlash_append, List.filter_append]

theorem processRow_fs_change (base_output : Str) (oracle : Nat → AttemptOutcome)
    (st : BatchState) (row : CsvRow) (p : Str)
    (h : (processRow base_output oracle st row).2.fs p ≠ st.fs p) :
    ∃ rel, isAbsolutePath rel = false ∧ hasParentSeg rel = false ∧
      p = joinPath base_output rel := by
  by_cases hu : (isAbsolutePath (replaceColon row.path) ||
      hasParentSeg (replaceColon row.path)) = true
  · simp [processRow, hu] at h
  · rw [Bool.or_eq_true] at hu
    push_neg at hu
    have h1 : isAbsolutePath (replaceColon row.path) = false := by
      simpa using hu.1
    have h2 : hasParentSeg (replaceColon row.path) = false := by
      simpa using hu.2
    refine ⟨replaceColon row.path, h1, h2, ?_⟩
    by_cases he : (st.fs (joinPath base_output (replaceColon row.path))).isSome = true
    · simp [processRow, h1, h2, he] at h
    · simp only [processRow, h1, h2, Bool.or_self, Bool.false_eq_true, if_false,
        Bool.not_eq_true] at h
      rw [if_neg he] at h
      by_cases hp : p = joinPath base_output (replaceColon row.path)
      · exact hp
      · exfalso
        rcases hfa : (runRow oracle).fileAfter with _ | sz <;>
          simp [hfa, fsErase, fsWrite, hp] at h

theorem processRows_fs_change (base_output : Str) (oracle : Nat → Nat → AttemptOutcome)
    (rows : List CsvRow) (i : Nat) (st : BatchState) (p : Str)
    (h : (processRows base_output oracle rows i st).2.fs p ≠ st.fs p) :
    ∃ rel, isAbsolutePath rel = false ∧ hasParentSeg rel = false ∧
      p = joinPath base_output rel := by
  induction rows generalizing i st with
  | nil => simp [processRows] at h
  | cons row rest ih =>
    simp only [processRows] at h
    by_cases h1 : (processRow base_output (oracle i) st row).2.fs p = st.fs p
    · have h' := h
      rw [← h1] at h'
      exact ih (i + 1) (processRow base_output (oracle i) st row).2 h'
    · exact processRow_fs_change base_output (oracle i) st row p h1

/-- C5: a target row whose path (after replacing `:` with `_`) is absolute
or contains a `..` segment is skipped by the synthesis loop with the state
unchanged — no file is written, the TTS capability is not invoked, and the
row is not counted as a failure; consequently every path whose file the
synthesis loop changes is the output root joined with a safe relative
path, whose parts extend the root's parts without any `..` segment. -/
theorem path_safety_spec :
    (∀ base_output oracle st (row : CsvRow),
      (isAbsolutePath (replaceColon row.path) = true ∨
       hasParentSeg (replaceColon row.path) = true) →
      processRow base_output oracle st row = (.skippedUnsafe, st) ∧
      RowOutcome.attemptCount .skippedUnsafe = 0) ∧
    (∀ base_output oracle rows i st p,
      (processRows base_output oracle rows i st).2.fs p ≠ st.fs p →
      ∃ rel, isAbsolutePath rel = false ∧ hasParentSeg rel = false ∧
        "..".toList ∉ pathParts rel ∧ p = joinPath base_output rel ∧
        pathParts p = pathParts base_output ++ pathParts rel) := by
  constructor
  · intro base_output oracle st row hu
    constructor
    · have : (isAbsolutePath (replaceColon row.path) ||
          hasParentSeg (replaceColon row.path)) = true := by
        rcases hu with h | h <;> simp [h]
      simp [processRow, this]
    · rfl
  · intro base_output oracle rows i st p h
    obtain ⟨rel, h1, h2, rfl⟩ := processRows_fs_change base_output oracle rows i st p h
    refine ⟨rel, h1, h2, ?_, ?_, ?_⟩
    · simpa [hasParentSeg] using h2
    · rfl
    · simp [joinPath, h1, pathParts_append]

theorem attemptFailed_iff (a : AttemptOutcome) :
    attemptFailed a = true ↔
      (∃ f, a = .noResult f) ∨
      ∃ ok f, a = .res ok f ∧
        (ok = false ∨ f = none ∨ ∃ sz, f = some sz ∧ sz < 1024) := by
  cases a with
  | noResult f => simp [attemptFailed]
  | res ok f =>
    cases ok <;> rcases f with _ | sz <;> simp [attemptFailed]

theorem retryLoop_attempts_le (oracle : Nat → AttemptOutcome) (fuel rc : Nat)
    (h : rc + fuel ≤ 3) : (retryLoop oracle fuel rc).attempts ≤ 3 := by
  induction fuel generalizing rc with
  | zero =>
    show rc ≤ 3
    omega
  | succ fuel ih =>
    rcases ha : oracle rc with f | ⟨c, f⟩ <;> simp only [retryLoop, ha]
    · split
      · show rc + 1 ≤ 3
        omega
      · exact ih (rc + 1) (by omega)
    · split
      · split
        · show rc + 1 ≤ 3
          omega
        · exact ih (rc + 1) (by omega)
      · show rc + 1 ≤ 3
        omega

theorem retryLoop_all_fail (oracle : Nat → AttemptOutcome) (fuel rc : Nat)
    (hrc : rc + fuel = 3) (hlt : rc < 3)
    (h : ∀ n, n < 3 → attemptFailed (oracle n) = true) :
    retryLoop oracle fuel rc = ⟨3, true, none⟩ := by
  induction fuel generalizing rc with
  | zero => omega
  | succ fuel ih =>
    have hfail := h rc hlt
    rcases ha : oracle rc with f | ⟨c, f⟩ <;> rw [ha] at hfail <;>
      simp only [retryLoop, ha]
    · by_cases h3 : rc + 1 ≥ 3
      · have h31 : rc + 1 = 3 := by omega
        simp [h3, h31]
      · rw [if_neg h3]
        exact ih (rc + 1) (by omega) (by omega)
    · rw [hfail]
      by_cases h3 : rc + 1 ≥ 3
      · have h31 : rc + 1 = 3 := by omega
        simp [h3, h31]
      · simp only [if_true]
        rw [if_neg h3]
        exact ih (rc + 1) (by omega) (by omega)

theorem runRow_all_fail (oracle : Nat → AttemptOutcome)
    (h : ∀ n, n < 3 → attemptFailed (oracle n) = true) :
    runRow oracle = ⟨3, true, none⟩ :=
  retryLoop_all_fail oracle 3 0 rfl (by omega) h

theorem processRows_length (base_output : Str) (oracle : Nat → Nat → AttemptOutcome)
    (rows : List CsvRow) (i : Nat) (st : BatchState) :
    (processRows base_output oracle rows i st).1.length = rows.length := by
  induction rows generalizing i st with
  | nil => simp [processRows]
  | cons row rest ih => simp [processRows, ih]

/-- C2: an attempt fails iff the capability returns no result, a
non-success completion reason, or a missing or undersized (< 1024 bytes)
output file; the retry loop makes at most 3 attempts; when every attempt
fails on a safe row whose destination is absent, exactly 3 attempts are
made, the file is absent afterwards, the path is appended to the failure
list, and the loop still produces an outcome for every remaining row. -/
theorem retry_exhaustion_spec :
    (∀ a, attemptFailed a = true ↔
      (∃ f, a = .noResult f) ∨
      ∃ ok f, a = .res ok f ∧
        (ok = false ∨ f = none ∨ ∃ sz, f = some sz ∧ sz < 1024)) ∧
    (∀ oracle, (runRow oracle).attempts ≤ 3) ∧
    (∀ base_output oracle st (row : CsvRow),
      isAbsolutePath (replaceColon row.path) = false →
      hasParentSeg (replaceColon row.path) = false →
      st.fs (joinPath base_output (replaceColon row.path)) = none →
      (∀ n, n < 3 → attemptFailed (oracle n) = true) →
      (processRow base_output oracle st row).1 = .synthesized ⟨3, true, none⟩ ∧
      (processRow base_output oracle st row).2.fs
          (joinPath base_output (replaceColon row.path)) = none ∧
      (processRow base_output oracle st row).2.failed_outputs
          = st.failed_outputs ++ [joinPath base_output (replaceColon row.path)]) ∧
    (∀ base_output oracle rows i st,
      (processRows base_output oracle rows i st).1.length = rows.length) := by
  refine ⟨attemptFailed_iff, fun oracle => retryLoop_attempts_le oracle 3 0 (by omega),
    ?_, processRows_length⟩
  intro base_output oracle st row h1 h2 he hfail
  have hrun := runRow_all_fail oracle hfail
  have hne : (st.fs (joinPath base_output (replaceColon row.path))).isSome = false := by
    simp [he]
  refine ⟨?_, ?_, ?_⟩ <;>
    simp [processRow, h1, h2, hne, hrun, fsErase]

/-- Witness for C2 at a concrete always-failing capability. -/
theorem retry_exhaustion_spec_witness :
    (processRow "out".toList (fun _ => .noResult none) ⟨fun _ => none, []⟩
        ⟨"a.wav".toList, "Hi".toList⟩).1 = .synthesized ⟨3, true, none⟩ ∧
    (processRow "out".toList (fun _ => .noResult none) ⟨fun _ => none, []⟩
        ⟨"a.wav".toList, "Hi".toList⟩).2.fs
        (joinPath "out".toList (replaceColon "a.wav".toList)) = none ∧
    (processRow "out".toList (fun _ => .noResult none) ⟨fun _ => none, []⟩
        ⟨"a.wav".toList, "Hi".toList⟩).2.failed_outputs
        = ([] : List Str) ++ [joinPath "out".toList (replaceColon "a.wav".toList)] :=
  retry_exhaustion_spec.2.2.1 "out".toList (fun _ => .noResult none) ⟨fun _ => none, []⟩
    ⟨"a.wav".toList, "Hi".toList⟩ (by decide) (by decide) rfl (fun n _ => rfl)

/-- Witness for C5 at concrete inputs. -/
theorem path_safety_spec_witness :
    (processRow "out".toList (fun _ => .noResult none) ⟨fun _ => none, []⟩
        ⟨"../evil.wav".toList, "Hi".toList⟩
      = (.skippedUnsafe, ⟨fun _ => none, []⟩) ∧
      RowOutcome.attemptCount .skippedUnsafe = 0) ∧
    (∃ rel, isAbsolutePath rel = false ∧ hasParentSeg rel = false ∧
      "..".toList ∉ pathParts rel ∧
      "out/a.wav".toList = joinPath "out".toList rel ∧
      pathParts "out/a.wav".toList = pathParts "out".toList ++ pathParts rel) :=
  ⟨path_safety_spec.1 "out".toList (fun _ => .noResult none) ⟨fun _ => none, []⟩
      ⟨"../evil.wav".toList, "Hi".toList⟩ (by decide),
   path_safety_spec.2 "out".toList (fun _ _ => .res true (some 4000))
      [⟨"a.wav".toList, "Hi".toList⟩] 0 ⟨fun _ => none, []⟩ "out/a.wav".toList
      (by decide)⟩

/-- Counterexample to C1 as stated: a run with a non-empty failure list
raises the failure summary and does not write the snapshot or the
settings record. -/
theorem run_impl_failure_commit_cex :
    (run_impl "out".toList (fun _ _ => .noResult none)
        [⟨"a.wav".toList, "Hi".toList⟩] none (fun _ => none)).failed_outputs
      = ["out/a.wav".toList] ∧
    (run_impl "out".toList (fun _ _ => .noResult none)
        [⟨"a.wav".toList, "Hi".toList⟩] none (fun _ => none)).error
      = some (failSummary ["out/a.wav".toList]) ∧
    (run_impl "out".toList (fun _ _ => .noResult none)
        [⟨"a.wav".toList, "Hi".toList⟩] none (fun _ => none)).snapshot ≠
      some [⟨"a.wav".toList, "Hi".toList⟩] ∧
    (run_impl "out".toList (fun _ _ => .noResult none)
        [⟨"a.wav".toList, "Hi".toList⟩] none (fun _ => none)).snapshot = none ∧
    (run_impl "out".toList (fun _ _ => .noResult none)
        [⟨"a.wav".toList, "Hi".toList⟩] none (fun _ => none)).settings_written
      = false := by
  refine ⟨by decide, by decide, by decide, by decide, by decide⟩

/-- C1 (amended): when the failure list is non-empty after all target
rows are processed, the run reports the failure summary naming at most
5 failing paths (with an ellipsis indicator when there are more), and
terminates without writing the updated snapshot or the settings record
(they are written only when the failure list is empty). -/
theorem run_impl_failure_reporting (base_output : Str) (oracle : Nat → Nat → AttemptOutcome)
    (current_rows : List CsvRow) (lastSnapshot : Option (List CsvRow)) (fs : Fs)
    (h : (run_impl base_output oracle current_rows lastSnapshot fs).failed_outputs
      ≠ []) :
    (run_impl base_output oracle current_rows lastSnapshot fs).error
      = some (failSummary
          (run_impl base_output oracle current_rows lastSnapshot fs).failed_outputs) ∧
    (∃ shown,
      shown = (run_impl base_output oracle current_rows lastSnapshot
          fs).failed_outputs.take 5 ∧
      shown.length ≤ 5 ∧
      failSummary (run_impl base_output oracle current_rows lastSnapshot
          fs).failed_outputs
        = "Synthesis failed for ".toList ++
          natChars (run_impl base_output oracle current_rows lastSnapshot
            fs).failed_outputs.length ++
          " file(s) after 3 retries. Examples: ".toList ++
          List.intercalate ", ".toList shown ++
          (if (run_impl base_output oracle current_rows lastSnapshot
              fs).failed_outputs.length > 5
           then ", ...".toList else [])) ∧
    (run_impl base_output oracle current_rows lastSnapshot fs).snapshot = none ∧
    (run_impl base_output oracle current_rows lastSnapshot fs).settings_written
      = false := by
  by_cases hc : (processRows base_output oracle
      (selectTarget (diffRows base_output current_rows
          (lastSnapshot.getD current_rows) fs).changed_rows
        (diffRows base_output current_rows
          (lastSnapshot.getD current_rows) fs).new_rows current_rows) 0
      ⟨(diffRows base_output current_rows
          (lastSnapshot.getD current_rows) fs).fs, []⟩).2.failed_outputs = []
  · exfalso
    apply h
    simp [run_impl, hc]
  · refine ⟨?_, ⟨_, rfl, List.length_take_le 5 _, rfl⟩, ?_, ?_⟩
    · simp [run_impl, hc]
    · simp [run_impl, hc]
    · simp [run_impl, hc]

/-- Witness for the amended C1 at a concrete failing run. -/
theorem run_impl_failure_reporting_witness :
    (run_impl "out".toList (fun _ _ => .noResult none)
        [⟨"a.wav".toList, "Hi".toList⟩] none (fun _ => none)).error
      = some (failSummary
          (run_impl "out".toList (fun _ _ => .noResult none)
            [⟨"a.wav".toList, "Hi".toList⟩] none (fun _ => none)).failed_outputs) ∧
    (∃ shown,
      shown = (run_impl "out".toList (fun _ _ => .noResult none)
          [⟨"a.wav".toList, "Hi".toList⟩] none
          (fun _ => none)).failed_outputs.take 5 ∧
      shown.length ≤ 5 ∧
      failSummary (run_impl "out".toList (fun _ _ => .noResult none)
          [⟨"a.wav".toList, "Hi".toList⟩] none (fun _ => none)).failed_outputs
        = "Synthesis failed for ".toList ++
          natChars (run_impl "out".toList (fun _ _ => .noResult none)
            [⟨"a.wav".toList, "Hi".toList⟩] none
            (fun _ => none)).failed_outputs.length ++
          " file(s) after 3 retries. Examples: ".toList ++
          List.intercalate ", ".toList shown ++
          (if (run_impl "out".toList (fun _ _ => .noResult none)
              [⟨"a.wav".toList, "Hi".toList⟩] none
              (fun _ => none)).failed_outputs.length > 5
           then ", ...".toList else [])) ∧
    (run_impl "out".toList (fun _ _ => .noResult none)
        [⟨"a.wav".toList, "Hi".toList⟩] none (fun _ => none)).snapshot = none ∧
    (run_impl "out".toList (fun _ _ => .noResult none)
        [⟨"a.wav".toList, "Hi".toList⟩] none (fun _ => none)).settings_written
      = false :=
  run_impl_failure_reporting "out".toList (fun _ _ => .noResult none)
    [⟨"a.wav".toList, "Hi".toList⟩] none (fun _ => none) (by decide)

/-- C6: the deletion of a changed row's old output file happens during
diffing, with no path-safety check (the check guards only the later
synthesis loop, which would skip the row); a changed row with an absolute
path therefore deletes an existing file outside the output root. -/
theorem diff_deletion_outside_root :
    (∀ base_output last_map acc (row : CsvRow) t,
      last_map row.path = some t → t ≠ row.text_to_play →
      (diffStep base_output last_map acc row).fs
        (joinPath base_output (replaceColon row.path)) = none) ∧
    (diffRows "/home/user/out".toList
        [⟨"/etc/passwd".toList, "new".toList⟩]
        [⟨"/etc/passwd".toList, "old".toList⟩]
        (fun q => if q = "/etc/passwd".toList then some 2048 else none)).changed_rows
      = [⟨"/etc/passwd".toList, "new".toList⟩] ∧
    (fun q => if q = "/etc/passwd".toList then some (2048 : Nat) else none)
        "/etc/passwd".toList = some 2048 ∧
    (diffRows "/home/user/out".toList
        [⟨"/etc/passwd".toList, "new".toList⟩]
        [⟨"/etc/passwd".toList, "old".toList⟩]
        (fun q => if q = "/etc/passwd".toList then some 2048 else none)).fs
        "/etc/passwd".toList = none ∧
    isAbsolutePath (replaceColon "/etc/passwd".toList) = true ∧
    (∀ oracle st,
      processRow "/home/user/out".toList oracle st
          ⟨"/etc/passwd".toList, "new".toList⟩ = (.skippedUnsafe, st)) ∧
    joinPath "/home/user/out".toList "/etc/passwd".toList = "/etc/passwd".toList ∧
    ¬ ∃ rel, isAbsolutePath rel = false ∧
        "/etc/passwd".toList = joinPath "/home/user/out".toList rel := by
  refine ⟨?_, by decide, rfl, by decide, by decide, ?_, rfl, ?_⟩
  · intro base_output last_map acc row t hm ht
    simp only [diffStep, hm]
    rw [if_pos ht]
    by_cases hs : (acc.fs (joinPath base_output (replaceColon row.path))).isSome
    · simp only [hs, if_true]
      simp [fsErase]
    · simp only [hs, if_false]
      exact Option.not_isSome_iff_eq_none.mp hs
  · intro oracle st
    have hcond : (isAbsolutePath (replaceColon "/etc/passwd".toList) ||
        hasParentSeg (replaceColon "/etc/passwd".toList)) = true := by decide
    simp only [processRow, hcond, if_true]
  · rintro ⟨rel, h1, h2⟩
    simp only [joinPath, h1, Bool.false_eq_true, if_false] at h2
    have := congrArg List.length h2
    simp at this

theorem replaceChar_append (t : Char) (r a b : Str) :
    replaceChar t r (a ++ b) = replaceChar t r a ++ replaceChar t r b := by
  induction a with
  | nil => simp [replaceChar]
  | cons c rest ih => simp [replaceChar, ih]

theorem escape_append (a b : Str) :
    escape_xml_text (a ++ b) = escape_xml_text a ++ escape_xml_text b := by
  simp [escape_xml_text, replaceChar_append]

theorem escape_single (c : Char) : escape_xml_text [c] = escMap c := by
  by_cases h1 : c = '&'
  · subst h1; rfl
  by_cases h2 : c = '<'
  · subst h2; rfl
  by_cases h3 : c = '>'
  · subst h3; rfl
  by_cases h4 : c = '"'
  · subst h4; rfl
  by_cases h5 : c = '\''
  · subst h5; rfl
  simp [escape_xml_text, escMap, replaceChar, h1, h2, h3, h4, h5]

theorem escape_cons (c : Char) (s : Str) :
    escape_xml_text (c :: s) = escMap c ++ escape_xml_text s := by
  have : (c :: s) = [c] ++ s := rfl
  rw [this, escape_append, escape_single]

theorem escMap_mem (c x : Char) (hx : x ∈ escMap c) :
    x ≠ '<' ∧ x ≠ '>' ∧ x ≠ '"' ∧ x ≠ '\'' := by
  by_cases h1 : c = '&'
  · subst h1
    replace hx : x ∈ ['&', 'a', 'm', 'p', ';'] := hx
    simp at hx
    rcases hx with rfl | rfl | rfl | rfl | rfl <;> decide
  by_cases h2 : c = '<'
  · subst h2
    replace hx : x ∈ ['&', 'l', 't', ';'] := hx
    simp at hx
    rcases hx with rfl | rfl | rfl | rfl <;> decide
  by_cases h3 : c = '>'
  · subst h3
    replace hx : x ∈ ['&', 'g', 't', ';'] := hx
    simp at hx
    rcases hx with rfl | rfl | rfl | rfl <;> decide
  by_cases h4 : c = '"'
  · subst h4
    replace hx : x ∈ ['&', 'q', 'u', 'o', 't', ';'] := hx
    simp at hx
    rcases hx with rfl | rfl | rfl | rfl | rfl | rfl <;> decide
  by_cases h5 : c = '\''
  · subst h5
    replace hx : x ∈ ['&', 'a', 'p', 'o', 's', ';'] := hx
    simp at hx
    rcases hx with rfl | rfl | rfl | rfl | rfl | rfl <;> decide
  · simp only [escMap, h1, h2, h3, h4, h5, if_false] at hx
    simp at hx
    subst hx
    exact ⟨h2, h3, h4, h5⟩

theorem escape_no_raw (value : Str) (c : Char) (hc : c ∈ escape_xml_text value) :
    c ≠ '<' ∧ c ≠ '>' ∧ c ≠ '"' ∧ c ≠ '\'' := by
  induction value with
  | nil => simp [escape_xml_text, replaceChar] at hc
  | cons d rest ih =>
    rw [escape_cons] at hc
    rcases List.mem_append.mp hc with h | h
    · exact escMap_mem d c h
    · exact ih h

theorem escape_amp_entity (value : Str) :
    ∀ i, ((escape_xml_text value).drop i).head? = some '&' →
      ∃ e ∈ xmlEntities, ((escape_xml_text value).drop i).take e.length = e := by
  induction value with
  | nil => intro i h; simp [escape_xml_text, replaceChar] at h
  | cons c rest ih =>
    intro i h
    rw [escape_cons] at h ⊢
    by_cases hle : (escMap c).length ≤ i
    · rw [List.drop_append_eq_append_drop, List.drop_eq_nil_of_le hle,
        List.nil_append] at h ⊢
      exact ih _ h
    · push_neg at hle
      by_cases h1 : c = '&'
      · subst h1
        replace h : ((['&', 'a', 'm', 'p', ';'] ++ escape_xml_text rest).drop i).head?
            = some '&' := h
        show ∃ e ∈ xmlEntities,
          ((['&', 'a', 'm', 'p', ';'] ++ escape_xml_text rest).drop i).take e.length = e
        replace hle : i < 5 := hle
        interval_cases i
        · exact ⟨['&', 'a', 'm', 'p', ';'], by decide, rfl⟩
        · simp at h
        · simp at h
        · simp at h
        · simp at h
      by_cases h2 : c = '<'
      · subst h2
        replace h : ((['&', 'l', 't', ';'] ++ escape_xml_text rest).drop i).head?
            = some '&' := h
        show ∃ e ∈ xmlEntities,
          ((['&', 'l', 't', ';'] ++ escape_xml_text rest).drop i).take e.length = e
        replace hle : i < 4 := hle
        interval_cases i
        · exact ⟨['&', 'l', 't', ';'], by decide, rfl⟩
        · simp at h
        · simp at h
        · simp at h
      by_cases h3 : c = '>'
      · subst h3
        replace h : ((['&', 'g', 't', ';'] ++ escape_xml_text rest).drop i).head?
            = some '&' := h
        show ∃ e ∈ xmlEntities,
          ((['&', 'g', 't', ';'] ++ escape_xml_text rest).drop i).take e.length = e
        replace hle : i < 4 := hle
        interval_cases i
        · exact ⟨['&', 'g', 't', ';'], by decide, rfl⟩
        · simp at h
        · simp at h
        · simp at h
      by_cases h4 : c = '"'
      · subst h4
        replace h : ((['&', 'q', 'u', 'o', 't', ';'] ++ escape_xml_text rest).drop
            i).head? = some '&' := h
        show ∃ e ∈ xmlEntities,
          ((['&', 'q', 'u', 'o', 't', ';'] ++ escape_xml_text rest).drop i).take
            e.length = e
        replace hle : i < 6 := hle
        interval_cases i
        · exact ⟨['&', 'q', 'u', 'o', 't', ';'], by decide, rfl⟩
        · simp at h
        · simp at h
        · simp at h
        · simp at h
        · simp at h
      by_cases h5 : c = '\''
      · subst h5
        replace h : ((['&', 'a', 'p', 'o', 's', ';'] ++ escape_xml_text rest).drop
            i).head? = some '&' := h
        show ∃ e ∈ xmlEntities,
          ((['&', 'a', 'p', 'o', 's', ';'] ++ escape_xml_text rest).drop i).take
            e.length = e
        replace hle : i < 6 := hle
        interval_cases i
        · exact ⟨['&', 'a', 'p', 'o', 's', ';'], by decide, rfl⟩
        · simp at h
        · simp at h
        · simp at h
        · simp at h
        · simp at h
      · have hm : escMap c = [c] := by simp [escMap, h1, h2, h3, h4, h5]
        rw [hm] at h hle
        have hi0 : i = 0 := by simpa using Nat.lt_one_iff.mp hle
        subst hi0
        simp at h
        exact absurd h h1

/-- C7: `build_ssml` inserts the user text only through
`escape_xml_text`, which applies the five replacements with `&` first; the
escaped fragment contains no raw `<`, `>`, `\"` or `'`, and every `&` in
it starts one of the five entities. -/
theorem ssml_escape_spec :
    (∀ language_code region short_name text style speed pre_silence post_silence,
      build_ssml language_code region short_name text style speed pre_silence
          post_silence
        = ssmlBefore language_code region short_name style speed pre_silence ++
          escape_xml_text text ++ ssmlAfter style post_silence) ∧
    (∀ value, escape_xml_text value =
      replaceChar '\'' "&apos;".toList (replaceChar '"' "&quot;".toList
        (replaceChar '>' "&gt;".toList (replaceChar '<' "&lt;".toList
          (replaceChar '&' "&amp;".toList value))))) ∧
    (∀ value c, c ∈ escape_xml_text value →
      c ≠ '<' ∧ c ≠ '>' ∧ c ≠ '"' ∧ c ≠ '\'') ∧
    (∀ value i, ((escape_xml_text value).drop i).head? = some '&' →
      ∃ e ∈ xmlEntities, ((escape_xml_text value).drop i).take e.length = e) :=
  ⟨fun _ _ _ _ _ _ _ _ => rfl, fun _ => rfl, escape_no_raw, escape_amp_entity⟩

/-- Witness for C7 at concrete characters and positions. -/
theorem ssml_escape_spec_witness :
    ('a' ∈ escape_xml_text "a&b<c".toList ∧
      'a' ≠ '<' ∧ 'a' ≠ '>' ∧ 'a' ≠ '"' ∧ 'a' ≠ '\'') ∧
    (((escape_xml_text "a&b".toList).drop 1).head? = some '&' ∧
      ∃ e ∈ xmlEntities, ((escape_xml_text "a&b".toList).drop 1).take e.length = e) :=
  ⟨⟨by decide, ssml_escape_spec.2.2.1 "a&b<c".toList 'a' (by decide)⟩,
   ⟨by decide, ssml_escape_spec.2.2.2 "a&b".toList 1 (by decide)⟩⟩

theorem dw_self_of_head (p : Char → Bool) (l : Str)
    (h : ∀ c, l.head? = some c → p c = false) : l.dropWhile p = l := by
  cases l with
  | nil => rfl
  | cons c t => simp [List.dropWhile_cons, h c rfl]

theorem dw_head_false (p : Char → Bool) (l : Str) (c : Char)
    (h : (l.dropWhile p).head? = some c) : p c = false := by
  induction l with
  | nil => simp at h
  | cons d t ih =>
    rw [List.dropWhile_cons] at h
    by_cases hd : p d
    · rw [if_pos hd] at h
      exact ih h
    · rw [if_neg hd] at h
      simp at h
      subst h
      simpa using hd

theorem pyStrip_idem (s : Str) : pyStrip (pyStrip s) = pyStrip s := by
  set u := s.dropWhile isPySpace with hu
  have hsplit : u.reverse.takeWhile isPySpace ++ u.reverse.dropWhile isPySpace
      = u.reverse := List.takeWhile_append_dropWhile isPySpace u.reverse
  have hx : pyStrip s = (u.reverse.dropWhile isPySpace).reverse := rfl
  have hu_eq : u = (u.reverse.dropWhile isPySpace).reverse ++
      (u.reverse.takeWhile isPySpace).reverse := by
    have h2 := congrArg List.reverse hsplit
    rw [List.reverse_append, List.reverse_reverse] at h2
    exact h2.symm
  have hA : (pyStrip s).dropWhile isPySpace = pyStrip s := by
    apply dw_self_of_head
    intro c hc
    have hu_head : u.head? = some c := by
      rw [hu_eq, List.head?_append]
      rw [hx] at hc
      simp [hc]
    exact dw_head_false isPySpace s c hu_head
  have hB : (pyStrip s).reverse.dropWhile isPySpace = (pyStrip s).reverse := by
    apply dw_self_of_head
    intro c hc
    rw [hx, List.reverse_reverse] at hc
    exact dw_head_false isPySpace u.reverse c hc
  show (((pyStrip s).dropWhile isPySpace).reverse.dropWhile isPySpace).reverse
      = pyStrip s
  rw [hA, hB, List.reverse_reverse]

theorem rowsOfRecords_mem (recs : List (List Str)) (r : CsvRow)
    (hr : r ∈ rowsOfRecords recs) :
    r.path ≠ [] ∧ pyStrip r.path = r.path ∧
      pyStrip r.text_to_play = r.text_to_play := by
  cases recs with
  | nil => simp [rowsOfRecords] at hr
  | cons header data =>
    have hr' : r ∈ (data.filter (fun rcd => decide (rcd ≠ []))).filterMap
        (fun rcd =>
          if pyStrip ((dictGet header rcd "path".toList).getD []) = [] then none
          else some ⟨pyStrip ((dictGet header rcd "path".toList).getD []),
            pyStrip ((dictGet header rcd "text to play".toList).getD [])⟩) := hr
    rcases List.mem_filterMap.mp hr' with ⟨rcd, _, hmk⟩
    by_cases hp : pyStrip ((dictGet header rcd "path".toList).getD []) = []
    · rw [if_pos hp] at hmk
      exact absurd hmk (by simp)
    · rw [if_neg hp] at hmk
      have hre := Option.some.inj hmk
      subst hre
      exact ⟨hp, pyStrip_idem _, pyStrip_idem _⟩

theorem read_rows_stripped (s : Str) (r : CsvRow) (hr : r ∈ read_csv_rows s) :
    r.path ≠ [] ∧ pyStrip r.path = r.path ∧
      pyStrip r.text_to_play = r.text_to_play :=
  rowsOfRecords_mem (parseCsv s) r hr

theorem dictGet_map (header vals : List Str) (key : Str) (g : Str → Str) :
    dictGet header (vals.map g) key = (dictGet header vals key).map g := by
  unfold dictGet
  rw [List.zip_map_right, List.filter_map]
  have hc : (header.zip vals).filter
        ((fun kv => decide (kv.1 = key)) ∘ Prod.map id g)
      = (header.zip vals).filter (fun kv => decide (kv.1 = key)) :=
    List.filter_congr (fun kv _ => by cases kv; rfl)
  rw [hc, List.getLast?_map]
  rcases hl : ((header.zip vals).filter
      fun kv => decide (kv.1 = key)).getLast? with _ | kv
  · rw [hl]
    rfl
  · rw [hl]
    cases kv
    rfl

theorem rowsOfRecords_strip (header : List Str) (data : List (List Str)) :
    rowsOfRecords (header :: data)
      = rowsOfRecords (header :: data.map (List.map pyStrip)) := by
  show (data.filter (fun rcd => decide (rcd ≠ []))).filterMap _
      = ((data.map (List.map pyStrip)).filter (fun rcd => decide (rcd ≠ []))).filterMap _
  rw [List.filter_map]
  have hc : data.filter ((fun rcd => decide (rcd ≠ [])) ∘ List.map pyStrip)
      = data.filter (fun rcd => decide (rcd ≠ [])) :=
    List.filter_congr (fun rcd _ => by cases rcd <;> rfl)
  rw [hc, List.filterMap_map]
  apply List.filterMap_congr
  intro rcd _
  dsimp only [Function.comp_apply]
  rw [dictGet_map, dictGet_map]
  rcases hp : dictGet header rcd "path".toList with _ | pv <;>
    rcases ht : dictGet header rcd "text to play".toList with _ | tv <;>
      simp [pyStrip_idem]

theorem foldl_mapUpd_lookup (t : List CsvRow) (m0 : Str → Option Str) (p : Str) :
    t.foldl mapUpd m0 p =
      match t.reverse.find? (fun r => decide (r.path = p)) with
      | some r => some r.text_to_play
      | none => m0 p := by
  induction t generalizing m0 with
  | nil => rfl
  | cons a u ih =>
    rw [List.foldl_cons, ih, List.reverse_cons, List.find?_append]
    rcases hf : u.reverse.find? (fun r => decide (r.path = p)) with _ | r
    · rw [hf]
      by_cases hap : a.path = p
      · have hfa : List.find? (fun r => decide (r.path = p)) [a] = some a := by
          simp [List.find?, hap]
        rw [hfa]
        simp [mapUpd, hap.symm]
      · have hfa : List.find? (fun r => decide (r.path = p)) [a] = none := by
          simp [List.find?, hap]
        rw [hfa]
        show mapUpd m0 a p = m0 p
        simp only [mapUpd]
        rw [if_neg (fun h => hap (Eq.symm h))]
    · rw [hf]
      rfl

theorem lastMapOf_isSome (l : List CsvRow) (r : CsvRow) (hr : r ∈ l) :
    (lastMapOf l r.path).isSome = true := by
  rw [lastMapOf, foldl_mapUpd_lookup]
  rcases hf : l.reverse.find? (fun x => decide (x.path = r.path)) with _ | x
  · exfalso
    have hex : ∃ x ∈ l.reverse, (fun x => decide (x.path = r.path)) x = true :=
      ⟨r, List.mem_reverse.mpr hr, by simp⟩
    rw [← List.find?_isSome, hf] at hex
    simp at hex
  · rw [hf]
    rfl

theorem lastMapOf_nodup_lookup (l : List CsvRow)
    (hnd : (l.map (fun r => r.path)).Nodup) :
    ∀ r ∈ l, lastMapOf l r.path = some r.text_to_play := by
  intro r hr
  rw [lastMapOf, foldl_mapUpd_lookup]
  rcases hf : l.reverse.find? (fun x => decide (x.path = r.path)) with _ | x
  · exfalso
    have hex : ∃ x ∈ l.reverse, (fun x => decide (x.path = r.path)) x = true :=
      ⟨r, List.mem_reverse.mpr hr, by simp⟩
    rw [← List.find?_isSome, hf] at hex
    simp at hex
  · have hxmem : x ∈ l := List.mem_reverse.mp (List.mem_of_find?_eq_some hf)
    have hxp : x.path = r.path := by
      have := List.find?_some hf
      simpa using this
    have hxr : x = r := List.inj_on_of_nodup_map hnd hxmem hr hxp
    subst hxr
    rw [hf]

theorem diff_self (base_output : Str) (rows : List CsvRow) (fs : Fs)
    (hnd : (rows.map (fun r => r.path)).Nodup) :
    (diffRows base_output rows rows fs).changed_rows = [] ∧
    (diffRows base_output rows rows fs).new_rows = [] := by
  have hd := diff_foldl base_output (lastMapOf rows) rows ⟨[], [], fs⟩
  have hc : (diffRows base_output rows rows fs).changed_rows
      = rows.filter (rowIsChanged (lastMapOf rows)) := by simpa using hd.1
  have hn : (diffRows base_output rows rows fs).new_rows
      = rows.filter (rowIsNew (lastMapOf rows)) := by simpa using hd.2
  constructor
  · rw [hc]
    apply List.filter_eq_nil_iff.mpr
    intro r hr
    rw [rowIsChanged, lastMapOf_nodup_lookup rows hnd r hr]
    simp
  · rw [hn]
    apply List.filter_eq_nil_iff.mpr
    intro r hr
    have := lastMapOf_isSome rows r hr
    rw [rowIsNew]
    simp only [decide_eq_true_eq]
    intro hcon
    rw [hcon] at this
    simp at this

/-- Counterexample to C10 as stated: two CSV files whose fields differ
only in surrounding whitespace (here the header field ` path `) are read
as different row sequences, because header names are not stripped. -/
theorem reader_strip_cex :
    parseCsv "path,text to play\r\na,x\r\n".toList
      = [["path".toList, "text to play".toList], ["a".toList, "x".toList]] ∧
    parseCsv " path ,text to play\r\na,x\r\n".toList
      = [[" path ".toList, "text to play".toList], ["a".toList, "x".toList]] ∧
    (parseCsv "path,text to play\r\na,x\r\n".toList).map (List.map pyStrip)
      = (parseCsv " path ,text to play\r\na,x\r\n".toList).map (List.map pyStrip) ∧
    read_csv_rows "path,text to play\r\na,x\r\n".toList
      = [⟨"a".toList, "x".toList⟩] ∧
    read_csv_rows " path ,text to play\r\na,x\r\n".toList = [] ∧
    read_csv_rows "path,text to play\r\na,x\r\n".toList
      ≠ read_csv_rows " path ,text to play\r\na,x\r\n".toList := by
  refine ⟨by decide, by decide, by decide, by decide, by decide, by decide⟩

/-- C10 (amended): every row produced by the CSV reader has a non-empty
path and whitespace-stripped path and text; for a fixed header, data
records that agree after stripping every field are read identically; and
diffing a path-unique row list against itself classifies nothing as new
or changed. -/
theorem reader_strip_spec :
    (∀ s r, r ∈ read_csv_rows s →
      r.path ≠ [] ∧ pyStrip r.path = r.path ∧
        pyStrip r.text_to_play = r.text_to_play) ∧
    (∀ (header : List Str) (d1 d2 : List (List Str)),
      d1.map (List.map pyStrip) = d2.map (List.map pyStrip) →
      rowsOfRecords (header :: d1) = rowsOfRecords (header :: d2)) ∧
    (∀ base_output rows fs, (rows.map (fun r => r.path)).Nodup →
      (diffRows base_output rows rows fs).changed_rows = [] ∧
      (diffRows base_output rows rows fs).new_rows = []) := by
  refine ⟨read_rows_stripped, ?_, fun b rows fs hnd => diff_self b rows fs hnd⟩
  intro header d1 d2 hmap
  rw [rowsOfRecords_strip header d1, rowsOfRecords_strip header d2, hmap]

/-- Witness for the amended C10 at concrete files and records. -/
theorem reader_strip_spec_witness :
    (⟨"a".toList, "x".toList⟩ ∈ read_csv_rows "path,text to play\r\na,x\r\n".toList ∧
      ("a".toList ≠ [] ∧ pyStrip "a".toList = "a".toList ∧
        pyStrip "x".toList = "x".toList)) ∧
    rowsOfRecords [["path".toList, "text to play".toList], ["a".toList, "x".toList]]
      = rowsOfRecords [["path".toList, "text to play".toList],
          [" a ".toList, " x ".toList]] ∧
    ((diffRows "out".toList [⟨"a".toList, "x".toList⟩] [⟨"a".toList, "x".toList⟩]
        (fun _ => none)).changed_rows = [] ∧
     (diffRows "out".toList [⟨"a".toList, "x".toList⟩] [⟨"a".toList, "x".toList⟩]
        (fun _ => none)).new_rows = []) :=
  ⟨⟨by decide, reader_strip_spec.1 "path,text to play\r\na,x\r\n".toList
      ⟨"a".toList, "x".toList⟩ (by decide)⟩,
   reader_strip_spec.2.1 ["path".toList, "text to play".toList]
      [["a".toList, "x".toList]] [[" a ".toList, " x ".toList]] (by decide),
   reader_strip_spec.2.2 "out".toList [⟨"a".toList, "x".toList⟩] (fun _ => none)
      (by decide)⟩

theorem parseUnquoted_clean (f : Str)
    (hf : ∀ c ∈ f, c ≠ ',' ∧ c ≠ '\r' ∧ c ≠ '\n')
    (sep : Char) (hsep : sep = ',' ∨ sep = '\r') (rest : Str) :
    parseUnquoted (f ++ sep :: rest) = (f, sep :: rest) := by
  induction f with
  | nil =>
    rw [List.nil_append, parseUnquoted]
    rcases hsep with rfl | rfl <;> simp
  | cons c t ih =>
    rw [List.cons_append, parseUnquoted]
    have hc := hf c (List.mem_cons_self c t)
    rw [if_neg (by simp [hc.1, hc.2.1, hc.2.2])]
    rw [ih (fun x hx => hf x (List.mem_cons_of_mem c hx))]

theorem parseQuoted_enc (f : Str) (sep : Char) (hsep : ¬sep = '"') (rest : Str) :
    parseQuoted (replaceChar '"' ['"', '"'] f ++ '"' :: sep :: rest)
      = (f, sep :: rest) := by
  induction f with
  | nil =>
    rw [replaceChar, List.nil_append, parseQuoted.eq_def]
    dsimp only
    rw [if_pos rfl, if_neg hsep]
  | cons c t ih =>
    by_cases hc : c = '"'
    · subst hc
      rw [replaceChar, if_pos rfl]
      show parseQuoted ('"' :: '"' :: (replaceChar '"' ['"', '"'] t ++ '"' :: sep :: rest))
          = ('"' :: t, sep :: rest)
      rw [parseQuoted.eq_def]
      dsimp only
      rw [if_pos rfl, if_pos rfl, ih]
    · rw [replaceChar, if_neg hc]
      show parseQuoted (c :: (replaceChar '"' ['"', '"'] t ++ '"' :: sep :: rest))
          = (c :: t, sep :: rest)
      rw [parseQuoted.eq_def]
      dsimp only
      rw [if_neg hc, ih]

theorem needsQuote_false_chars (f : Str) (hq : needsQuote f = false) :
    ∀ c ∈ f, c ≠ ',' ∧ c ≠ '"' ∧ c ≠ '\r' ∧ c ≠ '\n' := by
  intro c hc
  rw [needsQuote, List.any_eq_false] at hq
  have := hq c hc
  simp only [Bool.or_eq_true, decide_eq_true_eq, not_or] at this
  tauto

theorem parseField_quote (f : Str) (sep : Char) (hsep : sep = ',' ∨ sep = '\r')
    (rest : Str) :
    parseField (quoteField f ++ sep :: rest) = (f, sep :: rest) := by
  have hsep' : ¬sep = '"' := by rcases hsep with rfl | rfl <;> decide
  by_cases hq : needsQuote f
  · rw [quoteField, if_pos hq]
    show parseField ('"' :: ((replaceChar '"' ['"', '"'] f ++ ['"']) ++ sep :: rest))
        = (f, sep :: rest)
    rw [parseField.eq_def]
    dsimp only
    rw [if_pos rfl]
    rw [List.append_assoc, List.singleton_append]
    rw [parseQuoted_enc f sep hsep' rest]
    have hu : parseUnquoted (sep :: rest) = ([], sep :: rest) := by
      rw [parseUnquoted]
      rcases hsep with rfl | rfl <;> simp
    rw [hu]
    simp
  · rw [quoteField, if_neg hq]
    have hchars := needsQuote_false_chars f (by simpa using hq)
    cases f with
    | nil =>
      rw [List.nil_append, parseField.eq_def]
      dsimp only
      rw [if_neg hsep']
      rw [parseUnquoted]
      rcases hsep with rfl | rfl <;> simp
    | cons c t =>
      have hc := hchars c (List.mem_cons_self c t)
      rw [List.cons_append, parseField.eq_def]
      dsimp only
      rw [if_neg hc.2.1]
      rw [← List.cons_append]
      exact parseUnquoted_clean (c :: t)
        (fun x hx => ⟨(hchars x hx).1, (hchars x hx).2.2.1, (hchars x hx).2.2.2⟩)
        sep hsep rest

theorem csvLine_pair (p t : Str) :
    csvLine [p, t] = quoteField p ++ ',' :: (quoteField t ++ ['\r', '\n']) := by
  show (List.intercalate [','] [quoteField p, quoteField t]) ++ ['\r', '\n'] = _
  have hi : List.intercalate [','] [quoteField p, quoteField t]
      = quoteField p ++ [','] ++ quoteField t := by
    simp [List.intercalate, List.intersperse]
  rw [hi]
  simp

theorem parseRecord_line (p t : Str) (rest : Str) (fuel : Nat) (hfuel : 2 ≤ fuel) :
    parseRecord fuel (quoteField p ++ ',' :: (quoteField t ++ '\r' :: '\n' :: rest))
      = ([p, t], rest) := by
  obtain ⟨k, rfl⟩ : ∃ k, fuel = k + 2 := ⟨fuel - 2, by omega⟩
  rw [parseRecord]
  rw [parseField_quote p ',' (Or.inl rfl)]
  dsimp only
  rw [if_pos rfl]
  rw [parseRecord]
  rw [parseField_quote t '\r' (Or.inr rfl)]
  dsimp only
  rw [if_neg (by decide), if_pos rfl]
  simp [dropLf]

theorem quoteField_line_head (f : Str) (X : Str) (c : Char) (u : Str)
    (h : quoteField f ++ ',' :: X = c :: u) : ¬c = '\r' ∧ ¬c = '\n' := by
  rcases hqp : quoteField f with _ | ⟨d, v⟩
  · rw [hqp, List.nil_append] at h
    cases h
    decide
  · rw [hqp, List.cons_append] at h
    have hcd : d = c := (List.cons.injEq _ _ _ _ ▸ h).1
    subst hcd
    by_cases hq : needsQuote f
    · rw [quoteField, if_pos hq] at hqp
      have : '"' = d := (List.cons.injEq _ _ _ _ ▸ hqp).1
      subst this
      decide
    · rw [quoteField, if_neg hq] at hqp
      have hd : d ∈ f := by rw [hqp]; exact List.mem_cons_self d v
      have := needsQuote_false_chars f (by simpa using hq) d hd
      exact ⟨this.2.2.1, this.2.2.2⟩

theorem parseRecords_body (rows : List CsvRow) :
    ∀ fuel, rows.length < fuel →
    parseRecords fuel
        ((rows.map (fun r => csvLine [r.path, r.text_to_play])).flatten)
      = rows.map (fun r => [r.path, r.text_to_play]) := by
  induction rows with
  | nil =>
    intro fuel hf
    obtain ⟨k, rfl⟩ : ∃ k, fuel = k + 1 := ⟨fuel - 1, by omega⟩
    simp [parseRecords]
  | cons r rest ih =>
    intro fuel hf
    obtain ⟨k, rfl⟩ : ∃ k, fuel = k + 1 := ⟨fuel - 1, by omega⟩
    rw [List.map_cons, List.flatten_cons, csvLine_pair]
    have hassoc :
        (quoteField r.path ++ ',' :: (quoteField r.text_to_play ++ ['\r', '\n'])) ++
          (rest.map (fun r => csvLine [r.path, r.text_to_play])).flatten
        = quoteField r.path ++ ',' :: (quoteField r.text_to_play ++ '\r' :: '\n' ::
            (rest.map (fun r => csvLine [r.path, r.text_to_play])).flatten) := by
      simp
    rw [hassoc]
    have hLne : quoteField r.path ++ ',' :: (quoteField r.text_to_play ++ '\r' :: '\n' ::
        (rest.map (fun r => csvLine [r.path, r.text_to_play])).flatten) ≠ [] := by
      rcases quoteField r.path with _ | ⟨d, v⟩ <;> simp
    obtain ⟨c, u, hcu⟩ := List.exists_cons_of_ne_nil hLne
    have hc := quoteField_line_head r.path _ c u hcu
    rw [hcu, parseRecords]
    rw [if_neg hc.1, if_neg hc.2]
    rw [← hcu]
    have hlen2 : 2 ≤ (quoteField r.path ++ ',' :: (quoteField r.text_to_play ++
        '\r' :: '\n' ::
        (rest.map (fun r => csvLine [r.path, r.text_to_play])).flatten)).length := by
      simp [List.length_append]
      omega
    rw [parseRecord_line r.path r.text_to_play
      ((rest.map (fun r => csvLine [r.path, r.text_to_play])).flatten) _ hlen2]
    dsimp only
    rw [ih k (by simp at hf ⊢; omega)]
    rw [List.map_cons]

theorem write_rows_eq_flatten (rows : List CsvRow) :
    write_rows rows = (((⟨"path".toList, "text to play".toList⟩ : CsvRow) :: rows).map
      (fun r => csvLine [r.path, r.text_to_play])).flatten := by
  rw [List.map_cons, List.flatten_cons]
  rfl

theorem lines_len_ge (rows : List CsvRow) :
    rows.length ≤
      ((rows.map (fun r => csvLine [r.path, r.text_to_play])).flatten).length := by
  induction rows with
  | nil => simp
  | cons r rest ih =>
    rw [List.map_cons, List.flatten_cons, List.length_append]
    have h1 : 1 ≤ (csvLine [r.path, r.text_to_play]).length := by
      rw [csvLine_pair]
      simp
      omega
    simp only [List.length_cons]
    omega

theorem parseCsv_write (rows : List CsvRow) :
    parseCsv (write_rows rows)
      = ["path".toList, "text to play".toList] ::
        rows.map (fun r => [r.path, r.text_to_play]) := by
  have hbom : (write_rows rows).take 1 = ['p'] := rfl
  simp only [parseCsv]
  rw [if_neg (by rw [hbom]; decide)]
  rw [write_rows_eq_flatten]
  have hfuel : ((⟨"path".toList, "text to play".toList⟩ : CsvRow) :: rows).length <
      ((((⟨"path".toList, "text to play".toList⟩ : CsvRow) :: rows).map
        (fun r => csvLine [r.path, r.text_to_play])).flatten).length + 1 := by
    have := lines_len_ge ((⟨"path".toList, "text to play".toList⟩ : CsvRow) :: rows)
    omega
  rw [parseRecords_body _ _ hfuel]
  rw [List.map_cons]

theorem rowsOfRecords_write (rows : List CsvRow)
    (h : ∀ r ∈ rows, r.path ≠ [] ∧ pyStrip r.path = r.path ∧
      pyStrip r.text_to_play = r.text_to_play) :
    rowsOfRecords (["path".toList, "text to play".toList] ::
      rows.map (fun r => [r.path, r.text_to_play])) = rows := by
  show ((rows.map (fun r => [r.path, r.text_to_play])).filter
      (fun rcd => decide (rcd ≠ []))).filterMap _ = rows
  induction rows with
  | nil => rfl
  | cons r rest ih =>
    have hr := h r (List.mem_cons_self r rest)
    rw [List.map_cons, List.filter_cons, if_pos (by simp)]
    rw [List.filterMap_cons]
    have hd1 : dictGet ["path".toList, "text to play".toList]
        [r.path, r.text_to_play] "path".toList = some r.path := rfl
    have hd2 : dictGet ["path".toList, "text to play".toList]
        [r.path, r.text_to_play] "text to play".toList = some r.text_to_play := rfl
    dsimp only
    rw [hd1, hd2]
    simp only [Option.getD_some]
    rw [hr.2.1, hr.2.2, if_neg hr.1]
    dsimp only
    rw [ih (fun x hx => h x (List.mem_cons_of_mem r hx))]

/-- C8 (amended): a sequence of rows whose paths are non-empty and whose
paths and texts carry no surrounding whitespace round-trips exactly
through the snapshot writer and reader, in order, including fields that
need CSV quoting. -/
theorem snapshot_roundtrip_spec (rows : List CsvRow)
    (h : ∀ r ∈ rows, r.path ≠ [] ∧ pyStrip r.path = r.path ∧
      pyStrip r.text_to_play = r.text_to_play) :
    read_csv_rows (write_rows rows) = rows := by
  rw [read_csv_rows, parseCsv_write, rowsOfRecords_write rows h]

/-- Counterexample to C8 as stated: a row whose path carries trailing
whitespace does not round-trip through the snapshot writer and reader. -/
theorem snapshot_roundtrip_cex :
    read_csv_rows (write_rows [⟨"a ".toList, "x".toList⟩])
      = [⟨"a".toList, "x".toList⟩] ∧
    read_csv_rows (write_rows [⟨"a ".toList, "x".toList⟩])
      ≠ [⟨"a ".toList, "x".toList⟩] := by
  refine ⟨by decide, by decide⟩

/-- Witness for the amended C8, with a field that needs quoting. -/
theorem snapshot_roundtrip_spec_witness :
    read_csv_rows (write_rows [⟨"a.wav".toList, "Hi".toList⟩,
        ⟨"b.wav".toList, "He said \"hi\", twice".toList⟩])
      = [⟨"a.wav".toList, "Hi".toList⟩,
         ⟨"b.wav".toList, "He said \"hi\", twice".toList⟩] :=
  snapshot_roundtrip_spec [⟨"a.wav".toList, "Hi".toList⟩,
      ⟨"b.wav".toList, "He said \"hi\", twice".toList⟩] (by decide)
